import Mathlib

/-!
Verification of the colour/style resolution engine of the eza file lister
(`src/theme/mod.rs`), shallowly embedded in Lean 4.

The repository sources available are `src/theme/mod.rs` (including its test
suite, which pins the behaviour of the UI-style code sets) and
`src/options/stdin.rs`.  The helper modules `theme/lsc.rs` (spec-string
splitting and SGR style-code parsing), `theme/ui_styles.rs` (the style table
and its two code sets), `theme/default_theme.rs` and `info/filetype.rs`
(built-in file-type detection) are not part of the sources; they are modelled
from the specification, as marked on each definition below.
-/

namespace Eza

/-- Colours of the `ansiterm` crate (external dependency): the eight named
palette colours, 256-colour codes and 24-bit colours.  Byte components are
modelled as `Nat` reduced mod 256. -/
inductive Colour where
  | black | red | green | yellow | blue | purple | cyan | white
  | fixed (n : Nat)
  | rgb (r g b : Nat)
deriving DecidableEq, Repr

/-- `ansiterm::Style`: optional foreground and background colour plus eight
independent boolean attributes. -/
@[ext]
structure Style where
  foreground : Option Colour := none
  background : Option Colour := none
  is_bold : Bool := false
  is_dimmed : Bool := false
  is_italic : Bool := false
  is_underline : Bool := false
  is_blink : Bool := false
  is_reverse : Bool := false
  is_hidden : Bool := false
  is_strikethrough : Bool := false
deriving DecidableEq, Repr

instance : Inhabited Style := ⟨{}⟩

/-- The named slots of the UI style table.  Modelled from the spec: the slot
catalogue of `ui_styles.rs` (file missing from the sources), restricted to the
slots whose codes are pinned by the test suite in `theme/mod.rs`. -/
inductive Slot where
  | fkNormal | fkDirectory | fkSymlink | fkPipe | fkBlockDevice | fkCharDevice
  | fkSocket | fkSpecial | fkExecutable | fkMountPoint
  | brokenSymlink | brokenPathOverlay | symlinkPath | controlChar
  | permUserRead | permUserWrite | permUserExecuteFile | permUserExecuteOther
  | permGroupRead | permGroupWrite | permGroupExecute
  | permOtherRead | permOtherWrite | permOtherExecute
  | permSpecialUserFile | permSpecialOther | permAttribute
  | sizeNumberByte | sizeNumberKilo | sizeNumberMega | sizeNumberGiga | sizeNumberHuge
  | sizeUnitByte | sizeUnitKilo | sizeUnitMega | sizeUnitGiga | sizeUnitHuge
  | sizeMajor | sizeMinor
  | userYou | userOther | groupYours | groupOther
  | linksNormal | linksMultiLinkFile
  | gitNew | gitModified | gitDeleted | gitRenamed | gitTypechange | gitIgnored | gitConflicted
  | punctuation | date | inode | blocks | header | octal | flags
  | ftImage | ftVideo | ftMusic | ftLossless | ftCrypto | ftDocument
  | ftCompressed | ftTemp | ftCompiled | ftBuild | ftSource
  | scNone | seUser | seRole | seType | seRange
deriving DecidableEq, Repr

/-- Modelled from the spec: the fixed style table of `ui_styles.rs`, "a fixed,
statically-known set of named slots, each holding a Style". -/
def UiStyles : Type := Slot → Style

/-- Modelled from the spec: the all-plain style table used when colour is
disabled (`UiStyles::plain`). -/
def UiStyles.plain : UiStyles := fun _ => {}

/-- Modelled from the spec: the colour-scale configuration consumed by the
default theme (`output/color_scale.rs`, missing from the sources); its
internals are irrelevant to every claim. -/
structure ColorScaleOptions where
deriving DecidableEq, Repr

/-- Modelled from the spec: the hard-coded default theme
(`theme/default_theme.rs`, missing from the sources).  The concrete slot
values are unspecified by the spec and irrelevant to the claims; the table is
non-plain (directories are bold blue, as in eza's published default). -/
def UiStyles.default_theme (_cs : ColorScaleOptions) : UiStyles := fun s =>
  match s with
  | .fkDirectory => { foreground := some .blue, is_bold := true }
  | _ => {}

/-! ### Specification-string splitting (modelled from the spec)

`theme/lsc.rs` is missing from the sources.  The spec gives the grammar
`(key=value)(:key=value)*`: the string splits on `:` into segments, each
segment splits at its first `=` into a key and a value, and a segment with no
`=` contributes no pair. -/

/-- One `key=value` pair of a specification string. -/
structure Pair where
  key : String
  value : String
deriving DecidableEq, Repr

/-- Modelled from the spec: split a character list on `:` into segments. -/
def splitSegs : List Char → List (List Char)
  | [] => [[]]
  | c :: cs =>
    if c = ':' then [] :: splitSegs cs
    else
      match splitSegs cs with
      | [] => [[c]]
      | seg :: segs => (c :: seg) :: segs

/-- Modelled from the spec: split a segment at its first `=`; a segment
without `=` yields no pair. -/
def splitEq : List Char → Option (List Char × List Char)
  | [] => none
  | c :: cs =>
    if c = '=' then some ([], cs)
    else (splitEq cs).map fun kv => (c :: kv.1, kv.2)

/-- Modelled from the spec: turn one segment into a `key=value` pair. -/
def parsePair (seg : List Char) : Option Pair :=
  (splitEq seg).map fun kv => ⟨⟨kv.1⟩, ⟨kv.2⟩⟩

/-- Modelled from the spec: `LSColors::each_pair` — all `key=value` pairs of a
specification string, in left-to-right order. -/
def eachPair (s : String) : List Pair :=
  (splitSegs s.data).filterMap parsePair

/-! ### SGR style-code parsing (modelled from the spec)

The value of a pair is a `;`-separated list of SGR-like numeric codes
(`theme/lsc.rs`, missing from the sources).  Recognized codes: attribute codes
1,2,3,4,5,7,8,9; colours 30–37 / 40–47; `38;5;N` / `48;5;N`; and
`38;2;R;G;B` / `48;2;R;G;B`.  Unrecognized or malformed codes are ignored
individually; parsing never fails. -/

/-- Parse a run of decimal digits as a number; `none` if the text is empty or
has a non-digit. -/
def parseNat (cs : List Char) : Option Nat :=
  match cs with
  | [] => none
  | _ =>
    let rec go : List Char → Option Nat → Option Nat
      | [], acc => acc
      | c :: rest, acc =>
        if c.isDigit then go rest (some ((acc.getD 0) * 10 + (c.toNat - 48)))
        else none
    go cs none

/-- The eight-colour palette indexed by the final digit of codes 30–37/40–47. -/
def palette (n : Nat) : Colour :=
  match n with
  | 0 => .black | 1 => .red | 2 => .green | 3 => .yellow
  | 4 => .blue | 5 => .purple | 6 => .cyan | _ => .white

/-- Modelled from the spec: interpret a list of parsed numeric codes,
best-effort, skipping anything unrecognized. -/
def sgrApply (st : Style) : List (Option Nat) → Style
  | [] => st
  | some 38 :: some 5 :: some n :: rest =>
      sgrApply { st with foreground := some (.fixed (n % 256)) } rest
  | some 48 :: some 5 :: some n :: rest =>
      sgrApply { st with background := some (.fixed (n % 256)) } rest
  | some 38 :: some 2 :: some r :: some g :: some b :: rest =>
      sgrApply { st with foreground := some (.rgb (r % 256) (g % 256) (b % 256)) } rest
  | some 48 :: some 2 :: some r :: some g :: some b :: rest =>
      sgrApply { st with background := some (.rgb (r % 256) (g % 256) (b % 256)) } rest
  | some n :: rest =>
      if n = 1 then sgrApply { st with is_bold := true } rest
      else if n = 2 then sgrApply { st with is_dimmed := true } rest
      else if n = 3 then sgrApply { st with is_italic := true } rest
      else if n = 4 then sgrApply { st with is_underline := true } rest
      else if n = 5 then sgrApply { st with is_blink := true } rest
      else if n = 7 then sgrApply { st with is_reverse := true } rest
      else if n = 8 then sgrApply { st with is_hidden := true } rest
      else if n = 9 then sgrApply { st with is_strikethrough := true } rest
      else if 30 ≤ n ∧ n ≤ 37 then sgrApply { st with foreground := some (palette (n - 30)) } rest
      else if 40 ≤ n ∧ n ≤ 47 then sgrApply { st with background := some (palette (n - 40)) } rest
      else sgrApply st rest
  | none :: rest => sgrApply st rest

/-- Modelled from the spec: split a value on `;` into numeric tokens. -/
def splitSemis : List Char → List (List Char)
  | [] => [[]]
  | c :: cs =>
    if c = ';' then [] :: splitSemis cs
    else
      match splitSemis cs with
      | [] => [[c]]
      | seg :: segs => (c :: seg) :: segs

/-- Modelled from the spec: `Pair::to_style`, the SGR style-code parser. -/
def Pair.to_style (p : Pair) : Style :=
  sgrApply {} ((splitSemis p.value.data).map parseNat)

/-! ### Glob patterns (external `glob` crate, modelled at its interface)

The `glob` crate is an external dependency.  Modelled from the spec: a
"filesystem glob pattern" with `*` and `?` wildcards and literal characters;
a pattern containing a character-class bracket is taken as the compile-failure
case (`glob::Pattern::new` returning an error). -/

inductive GlobToken where
  | star
  | qmark
  | lit (c : Char)
deriving DecidableEq, Repr

structure GlobPattern where
  tokens : List GlobToken
deriving DecidableEq, Repr

/-- Modelled from the spec: `glob::Pattern::new`; fails on bracket patterns. -/
def globCompile (s : String) : Option GlobPattern :=
  let rec go : List Char → Option (List GlobToken)
    | [] => some []
    | c :: cs =>
      if c = '[' ∨ c = ']' then none
      else
        (go cs).map fun ts =>
          (if c = '*' then .star else if c = '?' then .qmark else .lit c) :: ts
  (go s.data).map GlobPattern.mk

/-- Modelled from the spec: glob matching of a token list against a name. -/
def globMatch : List GlobToken → List Char → Bool
  | [], [] => true
  | [], _ :: _ => false
  | .star :: ts, [] => globMatch ts []
  | .star :: ts, c :: cs => globMatch ts (c :: cs) || globMatch (.star :: ts) cs
  | .qmark :: _, [] => false
  | .qmark :: ts, _ :: cs => globMatch ts cs
  | .lit _ :: _, [] => false
  | .lit l :: ts, c :: cs => l = c && globMatch ts cs
termination_by ts cs => (ts.length, cs.length)

/-- `glob::Pattern::matches`. -/
def GlobPattern.matches (p : GlobPattern) (name : String) : Bool :=
  globMatch p.tokens name.data

/-! ### The UI-style code sets (modelled from the spec and the test suite)

`theme/ui_styles.rs` is missing from the sources.  `set_ls` recognizes the
restricted legacy two-letter code set; `set_exa` recognizes the extended
tool-specific code set.  The code→slot tables below follow the spec's slot
catalogue and the behaviour pinned by the test suite in `theme/mod.rs`
(e.g. `sn`/`sb` write all five size-number/unit slots). -/

/-- Modelled from the spec: the legacy code set of `UiStyles::set_ls`. -/
def lsCode (k : String) : Option Slot :=
  match k with
  | "fi" => some .fkNormal
  | "di" => some .fkDirectory
  | "ln" => some .fkSymlink
  | "pi" => some .fkPipe
  | "bd" => some .fkBlockDevice
  | "cd" => some .fkCharDevice
  | "so" => some .fkSocket
  | "ex" => some .fkExecutable
  | "or" => some .brokenSymlink
  | _ => none

/-- Modelled from the spec: the extended code set of `UiStyles::set_exa`,
giving the list of slots each code writes. -/
def exaCode (k : String) : Option (List Slot) :=
  match k with
  | "ur" => some [.permUserRead]
  | "uw" => some [.permUserWrite]
  | "ux" => some [.permUserExecuteFile]
  | "ue" => some [.permUserExecuteOther]
  | "gr" => some [.permGroupRead]
  | "gw" => some [.permGroupWrite]
  | "gx" => some [.permGroupExecute]
  | "tr" => some [.permOtherRead]
  | "tw" => some [.permOtherWrite]
  | "tx" => some [.permOtherExecute]
  | "su" => some [.permSpecialUserFile]
  | "sf" => some [.permSpecialOther]
  | "xa" => some [.permAttribute]
  | "sn" => some [.sizeNumberByte, .sizeNumberKilo, .sizeNumberMega, .sizeNumberGiga, .sizeNumberHuge]
  | "sb" => some [.sizeUnitByte, .sizeUnitKilo, .sizeUnitMega, .sizeUnitGiga, .sizeUnitHuge]
  | "nb" => some [.sizeNumberByte]
  | "nk" => some [.sizeNumberKilo]
  | "nm" => some [.sizeNumberMega]
  | "ng" => some [.sizeNumberGiga]
  | "nt" => some [.sizeNumberHuge]
  | "ub" => some [.sizeUnitByte]
  | "uk" => some [.sizeUnitKilo]
  | "um" => some [.sizeUnitMega]
  | "ug" => some [.sizeUnitGiga]
  | "ut" => some [.sizeUnitHuge]
  | "df" => some [.sizeMajor]
  | "ds" => some [.sizeMinor]
  | "uu" => some [.userYou]
  | "un" => some [.userOther]
  | "gu" => some [.groupYours]
  | "gn" => some [.groupOther]
  | "lc" => some [.linksNormal]
  | "lm" => some [.linksMultiLinkFile]
  | "ga" => some [.gitNew]
  | "gm" => some [.gitModified]
  | "gd" => some [.gitDeleted]
  | "gv" => some [.gitRenamed]
  | "gt" => some [.gitTypechange]
  | "gi" => some [.gitIgnored]
  | "gc" => some [.gitConflicted]
  | "xx" => some [.punctuation]
  | "da" => some [.date]
  | "in" => some [.inode]
  | "bl" => some [.blocks]
  | "hd" => some [.header]
  | "lp" => some [.symlinkPath]
  | "cc" => some [.controlChar]
  | "oc" => some [.octal]
  | "ff" => some [.flags]
  | "bO" => some [.brokenPathOverlay]
  | "mp" => some [.fkMountPoint]
  | "sp" => some [.fkSpecial]
  | "im" => some [.ftImage]
  | "vi" => some [.ftVideo]
  | "mu" => some [.ftMusic]
  | "lo" => some [.ftLossless]
  | "cr" => some [.ftCrypto]
  | "do" => some [.ftDocument]
  | "co" => some [.ftCompressed]
  | "tm" => some [.ftTemp]
  | "cm" => some [.ftCompiled]
  | "bu" => some [.ftBuild]
  | "sc" => some [.ftSource]
  | "Sn" => some [.scNone]
  | "Su" => some [.seUser]
  | "Sr" => some [.seRole]
  | "St" => some [.seType]
  | "Sl" => some [.seRange]
  | _ => none

/-- Modelled from the spec: `UiStyles::set_ls` — try the legacy code set; on
success return the table with that slot overwritten. -/
def UiStyles.set_ls (u : UiStyles) (p : Pair) : Option UiStyles :=
  match lsCode p.key with
  | some slot => some fun s => if s = slot then p.to_style else u s
  | none => none

/-- Modelled from the spec: `UiStyles::set_exa` — try the extended code set;
on success return the table with that code's slots overwritten. -/
def UiStyles.set_exa (u : UiStyles) (p : Pair) : Option UiStyles :=
  match exaCode p.key with
  | some slots => some fun s => if s ∈ slots then p.to_style else u s
  | none => none

/-! ### Extension mappings and the spec parser (`theme/mod.rs`, in sources) -/

/-- `ExtensionMappings` (`theme/mod.rs`): the ordered list of
(glob pattern, style) associations. -/
structure ExtensionMappings where
  mappings : List (GlobPattern × Style) := []
deriving DecidableEq, Repr

/-- `ExtensionMappings::is_non_empty`. -/
def ExtensionMappings.is_non_empty (e : ExtensionMappings) : Bool :=
  !e.mappings.isEmpty

/-- `ExtensionMappings::add`: push one entry at the end. -/
def ExtensionMappings.add (e : ExtensionMappings) (pat : GlobPattern) (st : Style) :
    ExtensionMappings :=
  ⟨e.mappings ++ [(pat, st)]⟩

/-- The two optional raw specification strings (`Definitions` in
`theme/mod.rs`): `ls` is the legacy string, `exa` the extended string. -/
structure Definitions where
  ls : Option String := none
  exa : Option String := none
deriving DecidableEq, Repr

/-- The state threaded through `parse_color_vars`: the mutable style table,
the accumulated extension mappings, and the glob-failure diagnostics the Rust
code emits with `warn!`. -/
structure ParseState where
  ui : UiStyles
  exts : ExtensionMappings
  diags : List Pair

/-- A pair tagged with the string it came from: `false` for the legacy
string, `true` for the extended string. -/
abbrev TaggedPair := Bool × Pair

/-- The body of the two closures in `Definitions::parse_color_vars`
(`theme/mod.rs` lines 95–106 and 117–128): try `set_ls`, then — only for
extended-string pairs — `set_exa`, and otherwise compile the key as a glob
pattern, appending the entry on success and a diagnostic on failure. -/
def processPair (st : ParseState) : TaggedPair → ParseState
  | (isExa, p) =>
    match st.ui.set_ls p with
    | some ui => { st with ui }
    | none =>
      match (if isExa then st.ui.set_exa p else none) with
      | some ui => { st with ui }
      | none =>
        match globCompile p.key with
        | some pat => { st with exts := st.exts.add pat p.to_style }
        | none => { st with diags := st.diags ++ [p] }

/-- All pairs of both specification strings in processing order: every
legacy-string pair precedes every extended-string pair. -/
def Definitions.taggedPairs (d : Definitions) : List TaggedPair :=
  ((d.ls.map eachPair).getD []).map (fun p => (false, p)) ++
    ((d.exa.map eachPair).getD []).map (fun p => (true, p))

/-- Is the list `pre` an initial segment of `l`? (`str::starts_with`). -/
def leadsWith : List Char → List Char → Bool
  | [], _ => true
  | _ :: _, [] => false
  | c :: pre, d :: l => c = d && leadsWith pre l

/-- The `reset` sentinel test of `parse_color_vars` (`theme/mod.rs` line 113):
the extended string is exactly `"reset"` or begins with `"reset:"`. -/
def isResetString (e : String) : Bool :=
  e.data = "reset".data || leadsWith "reset:".data e.data

/-- `Definitions::parse_color_vars` (`theme/mod.rs` lines 89–132): fold the
pairs of the legacy string and then of the extended string over the state,
and compute the use-built-in-file-types flag from the `reset` sentinel. -/
def Definitions.parse_color_vars (d : Definitions) (colours : UiStyles) :
    ParseState × Bool :=
  let st := d.taggedPairs.foldl processPair ⟨colours, {}, []⟩
  let use_default_filetypes :=
    match d.exa with
    | some e => !isResetString e
    | none => true
  (st, use_default_filetypes)

/-! ### Files, the file-style resolver and Theme assembly -/

/-- The file-type categories of `info/filetype.rs`. -/
inductive FileType where
  | image | video | music | lossless | crypto | document
  | compressed | temp | compiled | build | source
deriving DecidableEq, Repr

/-- Modelled from the spec: a file is opaque to this subsystem beyond its
name (for glob matching) and its derivable type category (`fs::File` and
`FileType::get_file_type` in `info/filetype.rs`, missing from the sources). -/
structure File where
  name : String
  file_type : Option FileType
deriving DecidableEq, Repr

/-- `FileType::get_file_type`, abstracted as the file's stored category. -/
def File.get_file_type (f : File) : Option FileType :=
  f.file_type

/-- The four file-style resolver variants built by `Options::to_theme`:
`NoFileStyle`, `FileTypes`, `ExtensionMappings`, and the pair
`(ExtensionMappings, FileTypes)`. -/
inductive FileStyleResolver where
  | noStyle
  | fileTypes
  | extMappings (e : ExtensionMappings)
  | extThenFileTypes (e : ExtensionMappings)

/-- `Theme` (`theme/mod.rs`): a style table plus a resolver. -/
structure Theme where
  ui : UiStyles
  exts : FileStyleResolver

/-- `impl FileStyle for FileTypes` (`theme/mod.rs` lines 198–216): map the
file's category to the corresponding file-type slot of the theme's table. -/
def fileTypesStyle (f : File) (t : Theme) : Option Style :=
  match f.get_file_type with
  | some .image => some (t.ui .ftImage)
  | some .video => some (t.ui .ftVideo)
  | some .music => some (t.ui .ftMusic)
  | some .lossless => some (t.ui .ftLossless)
  | some .crypto => some (t.ui .ftCrypto)
  | some .document => some (t.ui .ftDocument)
  | some .compressed => some (t.ui .ftCompressed)
  | some .temp => some (t.ui .ftTemp)
  | some .compiled => some (t.ui .ftCompiled)
  | some .build => some (t.ui .ftBuild)
  | some .source => some (t.ui .ftSource)
  | none => none

/-- `impl FileStyle for ExtensionMappings` (`theme/mod.rs` lines 185–193):
scan the entries in reverse and return the first whose pattern matches. -/
def ExtensionMappings.get_style (e : ExtensionMappings) (f : File) : Option Style :=
  (e.mappings.reverse.find? fun entry => entry.1.matches f.name).map fun entry => entry.2

/-- `FileStyle::get_style` dispatched over the four resolver variants; the
pair variant is `impl FileStyle for (A, B)` (`theme/mod.rs` lines 155–165):
try the first, or else the second. -/
def FileStyleResolver.get_style : FileStyleResolver → File → Theme → Option Style
  | .noStyle, _, _ => none
  | .fileTypes, f, t => fileTypesStyle f t
  | .extMappings e, f, _ => e.get_style f
  | .extThenFileTypes e, f, t => (e.get_style f).orElse fun _ => fileTypesStyle f t

/-- `Options` (`theme/mod.rs`). -/
inductive UseColours where
  | always | automatic | never
deriving DecidableEq, Repr

structure Options where
  use_colours : UseColours
  colour_scale : ColorScaleOptions
  definitions : Definitions

/-- `Options::to_theme` (`theme/mod.rs` lines 57–79). -/
def Options.to_theme (o : Options) (isatty : Bool) : Theme :=
  if o.use_colours = UseColours.never ∨
      (o.use_colours = UseColours.automatic ∧ isatty = false) then
    { ui := UiStyles.plain, exts := .noStyle }
  else
    let parsed := o.definitions.parse_color_vars (UiStyles.default_theme o.colour_scale)
    let exts : FileStyleResolver :=
      match parsed.1.exts.is_non_empty, parsed.2 with
      | false, false => .noStyle
      | false, true => .fileTypes
      | true, false => .extMappings parsed.1.exts
      | true, true => .extThenFileTypes parsed.1.exts
    { ui := parsed.1.ui, exts }

/-- `FileNameColours::colour_file` (`theme/mod.rs` lines 375–379): resolve
the file's style, defaulting to the normal-file-kind slot. -/
def Theme.colour_file (t : Theme) (f : File) : Style :=
  (t.exts.get_style f t).getD (t.ui .fkNormal)

/-- `apply_overlay` (`theme/mod.rs` lines 405–419).  Each statement of the
Rust function conditionally overwrites one distinct field of `base`; the
translation gives the resulting value of each field (e.g.
`if let Some(fg) = overlay.foreground { base.foreground = Some(fg); }`
becomes the `foreground` line below). -/
def apply_overlay (base overlay : Style) : Style where
  foreground := match overlay.foreground with
    | some fg => some fg
    | none => base.foreground
  background := match overlay.background with
    | some bg => some bg
    | none => base.background
  is_bold := if overlay.is_bold then true else base.is_bold
  is_dimmed := if overlay.is_dimmed then true else base.is_dimmed
  is_italic := if overlay.is_italic then true else base.is_italic
  is_underline := if overlay.is_underline then true else base.is_underline
  is_blink := if overlay.is_blink then true else base.is_blink
  is_reverse := if overlay.is_reverse then true else base.is_reverse
  is_hidden := if overlay.is_hidden then true else base.is_hidden
  is_strikethrough := if overlay.is_strikethrough then true else base.is_strikethrough

/-! ### Derived notions used by the statements -/

/-- The set of style-table slots a pair writes: the legacy code's slot when
`set_ls` recognizes the key, else — for extended-string pairs only — the
extended code's slots, else nothing. -/
def writeSet : TaggedPair → List Slot
  | (isExa, p) =>
    match lsCode p.key with
    | some slot => [slot]
    | none => if isExa then (exaCode p.key).getD [] else []

/-- Does this pair assign this slot? -/
def writesSlot (tp : TaggedPair) (s : Slot) : Bool :=
  decide (s ∈ writeSet tp)

/-- Is the key recognized by the code sets consulted for its string: the
legacy set for legacy-string pairs, the legacy and extended sets for
extended-string pairs? -/
def recognizedCode (isExa : Bool) (k : String) : Bool :=
  (lsCode k).isSome || (isExa && (exaCode k).isSome)

/-- A pair takes effect on the style table or the extension mappings: its key
is recognized by the consulted code sets or compiles as a glob pattern. -/
def pairOk (tp : TaggedPair) : Bool :=
  recognizedCode tp.1 tp.2.key || (globCompile tp.2.key).isSome

/-- A sample base style used to instantiate hypotheses of proved theorems. -/
def sampleBase : Style :=
  { foreground := some .yellow, is_bold := true }

/-- A sample overlay style used to instantiate hypotheses of proved
theorems. -/
def sampleOverlay : Style :=
  { foreground := some .red, is_underline := true }

/-! ## Theorems -/

set_option maxRecDepth 4096

/-! ### Overlay composition (`apply_overlay`) -/

theorem apply_overlay_foreground (b o : Style) :
    (apply_overlay b o).foreground =
      match o.foreground with
      | some c => some c
      | none => b.foreground := rfl

theorem apply_overlay_background (b o : Style) :
    (apply_overlay b o).background =
      match o.background with
      | some c => some c
      | none => b.background := rfl

theorem apply_overlay_is_bold (b o : Style) :
    (apply_overlay b o).is_bold = (b.is_bold || o.is_bold) := by
  cases h : o.is_bold <;> simp [apply_overlay, h]

theorem apply_overlay_is_dimmed (b o : Style) :
    (apply_overlay b o).is_dimmed = (b.is_dimmed || o.is_dimmed) := by
  cases h : o.is_dimmed <;> simp [apply_overlay, h]

theorem apply_overlay_is_italic (b o : Style) :
    (apply_overlay b o).is_italic = (b.is_italic || o.is_italic) := by
  cases h : o.is_italic <;> simp [apply_overlay, h]

theorem apply_overlay_is_underline (b o : Style) :
    (apply_overlay b o).is_underline = (b.is_underline || o.is_underline) := by
  cases h : o.is_underline <;> simp [apply_overlay, h]

theorem apply_overlay_is_blink (b o : Style) :
    (apply_overlay b o).is_blink = (b.is_blink || o.is_blink) := by
  cases h : o.is_blink <;> simp [apply_overlay, h]

theorem apply_overlay_is_reverse (b o : Style) :
    (apply_overlay b o).is_reverse = (b.is_reverse || o.is_reverse) := by
  cases h : o.is_reverse <;> simp [apply_overlay, h]

theorem apply_overlay_is_hidden (b o : Style) :
    (apply_overlay b o).is_hidden = (b.is_hidden || o.is_hidden) := by
  cases h : o.is_hidden <;> simp [apply_overlay, h]

theorem apply_overlay_is_strikethrough (b o : Style) :
    (apply_overlay b o).is_strikethrough = (b.is_strikethrough || o.is_strikethrough) := by
  cases h : o.is_strikethrough <;> simp [apply_overlay, h]

/-- **C6.** For every base and overlay style, `apply_overlay` takes the
overlay's foreground (respectively background) colour when the overlay
specifies one and otherwise keeps the base's, and each of the eight boolean
attributes of the result is the logical OR of the corresponding attributes of
base and overlay, so applying an overlay never turns an attribute off. -/
theorem apply_overlay_spec (b o : Style) :
    (apply_overlay b o).foreground =
        (match o.foreground with | some c => some c | none => b.foreground) ∧
    (apply_overlay b o).background =
        (match o.background with | some c => some c | none => b.background) ∧
    (apply_overlay b o).is_bold = (b.is_bold || o.is_bold) ∧
    (apply_overlay b o).is_dimmed = (b.is_dimmed || o.is_dimmed) ∧
    (apply_overlay b o).is_italic = (b.is_italic || o.is_italic) ∧
    (apply_overlay b o).is_underline = (b.is_underline || o.is_underline) ∧
    (apply_overlay b o).is_blink = (b.is_blink || o.is_blink) ∧
    (apply_overlay b o).is_reverse = (b.is_reverse || o.is_reverse) ∧
    (apply_overlay b o).is_hidden = (b.is_hidden || o.is_hidden) ∧
    (apply_overlay b o).is_strikethrough = (b.is_strikethrough || o.is_strikethrough) :=
  ⟨apply_overlay_foreground b o, apply_overlay_background b o,
   apply_overlay_is_bold b o, apply_overlay_is_dimmed b o,
   apply_overlay_is_italic b o, apply_overlay_is_underline b o,
   apply_overlay_is_blink b o, apply_overlay_is_reverse b o,
   apply_overlay_is_hidden b o, apply_overlay_is_strikethrough b o⟩

/-- **C7.** Applying the same overlay twice equals applying it once, and
every boolean attribute true in the base stays true in the result. -/
theorem apply_overlay_idem_mono (b o : Style) :
    apply_overlay (apply_overlay b o) o = apply_overlay b o ∧
    (b.is_bold = true → (apply_overlay b o).is_bold = true) ∧
    (b.is_dimmed = true → (apply_overlay b o).is_dimmed = true) ∧
    (b.is_italic = true → (apply_overlay b o).is_italic = true) ∧
    (b.is_underline = true → (apply_overlay b o).is_underline = true) ∧
    (b.is_blink = true → (apply_overlay b o).is_blink = true) ∧
    (b.is_reverse = true → (apply_overlay b o).is_reverse = true) ∧
    (b.is_hidden = true → (apply_overlay b o).is_hidden = true) ∧
    (b.is_strikethrough = true → (apply_overlay b o).is_strikethrough = true) := by
  refine ⟨?_, ?_, ?_, ?_, ?_, ?_, ?_, ?_, ?_⟩
  · ext <;>
      simp only [apply_overlay_foreground, apply_overlay_background,
        apply_overlay_is_bold, apply_overlay_is_dimmed, apply_overlay_is_italic,
        apply_overlay_is_underline, apply_overlay_is_blink, apply_overlay_is_reverse,
        apply_overlay_is_hidden, apply_overlay_is_strikethrough] <;>
      (try cases o.foreground) <;> (try cases o.background) <;>
      simp [Bool.or_assoc]
  all_goals intro h
  · rw [apply_overlay_is_bold, h]; rfl
  · rw [apply_overlay_is_dimmed, h]; rfl
  · rw [apply_overlay_is_italic, h]; rfl
  · rw [apply_overlay_is_underline, h]; rfl
  · rw [apply_overlay_is_blink, h]; rfl
  · rw [apply_overlay_is_reverse, h]; rfl
  · rw [apply_overlay_is_hidden, h]; rfl
  · rw [apply_overlay_is_strikethrough, h]; rfl

/-- Witness for **C7** at concrete styles. -/
theorem apply_overlay_idem_mono_witness :
    apply_overlay (apply_overlay sampleBase sampleOverlay) sampleOverlay =
        apply_overlay sampleBase sampleOverlay ∧
    (apply_overlay sampleBase sampleOverlay).is_bold = true :=
  ⟨(apply_overlay_idem_mono sampleBase sampleOverlay).1,
   (apply_overlay_idem_mono sampleBase sampleOverlay).2.1 (by decide)⟩

/-! ### Total style resolution (`colour_file`) -/

/-- **C10.** `colour_file` is total and never reports the absence of a
style: when the theme's resolver returns no style for the file it returns
the normal-file-kind slot of the style table, and when the resolver returns
a style it returns that style, so a caller always receives a concrete
style. -/
theorem colour_file_total (t : Theme) (f : File) :
    (t.exts.get_style f t = none → t.colour_file f = t.ui Slot.fkNormal) ∧
    (∀ st : Style, t.exts.get_style f t = some st → t.colour_file f = st) := by
  constructor
  · intro h
    simp [Theme.colour_file, h]
  · intro st h
    simp [Theme.colour_file, h]

/-- Witness for **C10** at a concrete theme and file. -/
theorem colour_file_total_witness :
    Theme.colour_file ⟨UiStyles.plain, .noStyle⟩ ⟨"a.txt", none⟩ =
      UiStyles.plain Slot.fkNormal :=
  (colour_file_total ⟨UiStyles.plain, .noStyle⟩ ⟨"a.txt", none⟩).1 rfl

/-! ### Colour-disabled themes (`to_theme` short circuit) -/

/-- **C2.** For every Options value and every pair of definition strings, if
the colour-enablement policy is `never`, or `automatic` with `isatty` false,
`to_theme` returns the theme with the all-plain style table and the no-style
resolver, which resolves no style for any file; the definition strings have
no effect and the spec parser is bypassed. -/
theorem to_theme_disabled (uc : UseColours) (cs : ColorScaleOptions)
    (d1 d2 : Option String) (isatty : Bool)
    (h : uc = UseColours.never ∨ (uc = UseColours.automatic ∧ isatty = false)) :
    (Options.mk uc cs ⟨d1, d2⟩).to_theme isatty =
        Theme.mk UiStyles.plain FileStyleResolver.noStyle ∧
    (∀ f : File,
      ((Options.mk uc cs ⟨d1, d2⟩).to_theme isatty).exts.get_style f
        ((Options.mk uc cs ⟨d1, d2⟩).to_theme isatty) = none) := by
  have ht : (Options.mk uc cs ⟨d1, d2⟩).to_theme isatty =
      Theme.mk UiStyles.plain FileStyleResolver.noStyle := by
    rw [Options.to_theme, if_pos h]
  exact ⟨ht, fun f => by rw [ht]; rfl⟩

/-- Witness for **C2**: colour policy `never`, non-trivial definition
strings, a concrete file. -/
theorem to_theme_disabled_witness :
    (Options.mk UseColours.never {} ⟨some "di=31", some "reset:*.txt=32"⟩).to_theme true =
        Theme.mk UiStyles.plain FileStyleResolver.noStyle ∧
    ((Options.mk UseColours.never {} ⟨some "di=31", some "reset:*.txt=32"⟩).to_theme
          true).exts.get_style ⟨"a.txt", some FileType.document⟩
        ((Options.mk UseColours.never {} ⟨some "di=31", some "reset:*.txt=32"⟩).to_theme true) =
      none :=
  ⟨(to_theme_disabled UseColours.never {} (some "di=31") (some "reset:*.txt=32") true
      (Or.inl rfl)).1,
   (to_theme_disabled UseColours.never {} (some "di=31") (some "reset:*.txt=32") true
      (Or.inl rfl)).2 ⟨"a.txt", some FileType.document⟩⟩

/-! ### Extension-mapping lookup (`ExtensionMappings::get_style`) -/

/-- **C3.** The extension-mapping lookup returns no style exactly when no
entry's pattern matches the name, and returns a style exactly when it is the
style of the entry whose pattern matches the name and after which no later
(more recently declared) entry matches — i.e. the scan runs in reverse
insertion order and the most recently declared matching pattern wins. -/
theorem ext_mappings_last_declared_wins (e : ExtensionMappings) (f : File) :
    (e.get_style f = none ↔ ∀ q ∈ e.mappings, q.1.matches f.name = false) ∧
    (∀ st : Style, e.get_style f = some st ↔
      ∃ pre entry suf, e.mappings = pre ++ entry :: suf ∧
        entry.1.matches f.name = true ∧ entry.2 = st ∧
        ∀ q ∈ suf, q.1.matches f.name = false) := by
  constructor
  · rw [ExtensionMappings.get_style, Option.map_eq_none', List.find?_eq_none]
    constructor
    · intro h q hq
      have := h q (List.mem_reverse.mpr hq)
      simpa using this
    · intro h q hq
      simp [h q (List.mem_reverse.mp hq)]
  · intro st
    rw [ExtensionMappings.get_style]
    constructor
    · intro h
      obtain ⟨entry, hfind, hsnd⟩ := Option.map_eq_some'.mp h
      obtain ⟨hmatch, as, bs, hsplit, hfail⟩ := List.find?_eq_some.mp hfind
      refine ⟨bs.reverse, entry, as.reverse, ?_, hmatch, hsnd, ?_⟩
      · have : e.mappings.reverse.reverse = (as ++ entry :: bs).reverse := by
          rw [hsplit]
        simpa using this
      · intro q hq
        have := hfail q (List.mem_reverse.mp hq)
        simpa using this
    · rintro ⟨pre, entry, suf, hsplit, hmatch, hsnd, hfail⟩
      have hrev : e.mappings.reverse = suf.reverse ++ entry :: pre.reverse := by
        rw [hsplit]; simp
      have hfind : e.mappings.reverse.find? (fun q => q.1.matches f.name) = some entry := by
        rw [hrev]
        apply List.find?_eq_some.mpr
        refine ⟨hmatch, suf.reverse, pre.reverse, rfl, ?_⟩
        intro q hq
        simp [hfail q (List.mem_reverse.mp hq)]
      rw [hfind, Option.map_some', hsnd]

/-! ### Slot writes of the spec parser -/

theorem processPair_ui (st : ParseState) (isExa : Bool) (p : Pair) (s : Slot) :
    (processPair st (isExa, p)).ui s =
      if writesSlot (isExa, p) s then p.to_style else st.ui s := by
  rw [processPair, UiStyles.set_ls, writesSlot, writeSet]
  cases hls : lsCode p.key with
  | some slot =>
    by_cases hs : s = slot <;> simp [hs]
  | none =>
    cases isExa with
    | false =>
      simp only [if_neg]
      cases hg : globCompile p.key <;> simp
    | true =>
      rw [UiStyles.set_exa]
      cases hexa : exaCode p.key with
      | some slots =>
        by_cases hs : s ∈ slots <;> simp [hs]
      | none =>
        cases hg : globCompile p.key <;> simp

theorem foldl_processPair_ui (s : Slot) (ps : List TaggedPair) (st : ParseState) :
    (ps.foldl processPair st).ui s =
      match ps.reverse.find? (fun tp => writesSlot tp s) with
      | some tp => tp.2.to_style
      | none => st.ui s := by
  induction ps generalizing st with
  | nil => rfl
  | cons tp ps ih =>
    obtain ⟨isExa, p⟩ := tp
    rw [List.foldl_cons, ih, List.reverse_cons, List.find?_append]
    cases h : ps.reverse.find? (fun tp => writesSlot tp s) with
    | some q => rfl
    | none =>
      cases hw : writesSlot (isExa, p) s with
      | true => simp [List.find?, hw, processPair_ui]
      | false => simp [List.find?, hw, processPair_ui]

/-- **C4.** For every pair of definition strings and every style-table slot,
the slot's value after `parse_color_vars` is the parsed style of the last
key/value pair that assigns that slot — pairs being ordered by position
within each string with all legacy-string pairs before all extended-string
pairs (`Definitions.taggedPairs`) — and the initial value when no pair
assigns it. -/
theorem parse_color_vars_last_write_wins (d : Definitions) (ui0 : UiStyles) (s : Slot) :
    (d.parse_color_vars ui0).1.ui s =
      match d.taggedPairs.reverse.find? (fun tp => writesSlot tp s) with
      | some tp => tp.2.to_style
      | none => ui0 s := by
  rw [Definitions.parse_color_vars]
  exact foldl_processPair_ui s d.taggedPairs ⟨ui0, {}, []⟩

/-! ### Code-set precedence over glob compilation (claim C8) -/

/-- **C8, counterexample.** The key `uu` is a valid UI-slot code (it is in
the extended code set), yet in the *legacy* string it is not consulted
against that set: `ls = "uu=38;5;117"` produces an extension-mapping entry
and leaves the `userYou` slot untouched.  So a key that is a valid UI-slot
code does not always update its slot in the legacy string. -/
theorem code_precedence_counterexample :
    (exaCode "uu").isSome = true ∧
    ((Definitions.mk (some "uu=38;5;117") none).parse_color_vars
        UiStyles.plain).1.exts.mappings.length = 1 ∧
    ((Definitions.mk (some "uu=38;5;117") none).parse_color_vars
        UiStyles.plain).1.ui Slot.userYou = UiStyles.plain Slot.userYou := by
  decide

/-- **C8, amended.** In each specification string, every key is first tried
against the code sets consulted for that string — the legacy set for the
legacy string, the legacy then the extended set for the extended string —
and only a key recognized by none of the consulted sets is compiled as a
glob pattern; a recognized key always updates its slot(s) and never produces
an extension-mapping entry, and an unrecognized key never updates a slot. -/
theorem code_precedence (isExa : Bool) (p : Pair) (st : ParseState) :
    (recognizedCode isExa p.key = true →
      (processPair st (isExa, p)).exts = st.exts ∧
      ((processPair st (isExa, p)).ui =
        fun s => if writesSlot (isExa, p) s then p.to_style else st.ui s)) ∧
    (recognizedCode isExa p.key = false →
      (processPair st (isExa, p)).ui = st.ui ∧
      (processPair st (isExa, p)).exts.mappings = st.exts.mappings ++
        (match globCompile p.key with
         | some pat => [(pat, p.to_style)]
         | none => [])) := by
  have hui : (processPair st (isExa, p)).ui =
      fun s => if writesSlot (isExa, p) s then p.to_style else st.ui s :=
    funext fun s => processPair_ui st isExa p s
  constructor
  · intro h
    refine ⟨?_, hui⟩
    rw [processPair, UiStyles.set_ls]
    cases hls : lsCode p.key with
    | some slot => rfl
    | none =>
      rw [recognizedCode, hls] at h
      cases hexa : exaCode p.key with
      | some slots =>
        cases isExa with
        | true => simp [UiStyles.set_exa, hexa]
        | false => simp at h
      | none =>
        rw [hexa] at h
        simp at h
  · intro h
    rw [recognizedCode] at h
    cases hls : lsCode p.key with
    | some slot => rw [hls] at h; simp at h
    | none =>
      rw [hls] at h
      simp only [Option.isSome_none, Bool.false_or] at h
      have hwf : ∀ s, writesSlot (isExa, p) s = false := by
        intro s
        rw [writesSlot, writeSet, hls]
        cases isExa with
        | false => simp
        | true =>
          cases hexa : exaCode p.key with
          | some slots => rw [hexa] at h; simp at h
          | none => simp [hexa]
      constructor
      · rw [hui]
        funext s
        simp [hwf s]
      · cases isExa with
        | false =>
          cases hg : globCompile p.key with
          | some pat =>
            simp [processPair, UiStyles.set_ls, hls, hg, ExtensionMappings.add]
          | none =>
            simp [processPair, UiStyles.set_ls, hls, hg]
        | true =>
          cases hexa : exaCode p.key with
          | some slots => rw [hexa] at h; simp at h
          | none =>
            cases hg : globCompile p.key with
            | some pat =>
              simp [processPair, UiStyles.set_ls, UiStyles.set_exa, hls, hexa, hg,
                ExtensionMappings.add]
            | none =>
              simp [processPair, UiStyles.set_ls, UiStyles.set_exa, hls, hexa, hg]

/-- Witness for **C8 (amended)**: a recognized extended-set key in the
extended string, and an unrecognized glob key in the legacy string. -/
theorem code_precedence_witness :
    ((processPair ⟨UiStyles.plain, {}, []⟩ (true, ⟨"uu", "31"⟩)).exts =
        (ParseState.mk UiStyles.plain {} []).exts ∧
      ((processPair ⟨UiStyles.plain, {}, []⟩ (true, ⟨"uu", "31"⟩)).ui =
        fun s => if writesSlot (true, ⟨"uu", "31"⟩) s then Pair.to_style ⟨"uu", "31"⟩
          else (ParseState.mk UiStyles.plain {} []).ui s)) ∧
    ((processPair ⟨UiStyles.plain, {}, []⟩ (false, ⟨"*.txt", "31"⟩)).ui =
        (ParseState.mk UiStyles.plain {} []).ui ∧
      (processPair ⟨UiStyles.plain, {}, []⟩ (false, ⟨"*.txt", "31"⟩)).exts.mappings =
        (ParseState.mk UiStyles.plain {} []).exts.mappings ++
          (match globCompile "*.txt" with
           | some pat => [(pat, Pair.to_style ⟨"*.txt", "31"⟩)]
           | none => [])) :=
  ⟨(code_precedence true ⟨"uu", "31"⟩ ⟨UiStyles.plain, {}, []⟩).1 (by decide),
   (code_precedence false ⟨"*.txt", "31"⟩ ⟨UiStyles.plain, {}, []⟩).2 (by decide)⟩

/-! ### Glob-compile failures never abort parsing (claim C9) -/

theorem processPair_fail (isExa : Bool) (p : Pair) (st : ParseState)
    (hls : lsCode p.key = none)
    (hexa : isExa = false ∨ exaCode p.key = none)
    (hg : globCompile p.key = none) :
    processPair st (isExa, p) = { st with diags := st.diags ++ [p] } := by
  rw [processPair, UiStyles.set_ls, hls]
  have hnone : (if isExa then st.ui.set_exa p else none) = none := by
    rcases hexa with h | h
    · rw [h]; rfl
    · cases isExa
      · rfl
      · rw [if_pos rfl, UiStyles.set_exa, h]
  rw [hnone, hg]

theorem processPair_congr (tp : TaggedPair) (st1 st2 : ParseState)
    (h1 : st1.ui = st2.ui) (h2 : st1.exts = st2.exts) :
    (processPair st1 tp).ui = (processPair st2 tp).ui ∧
    (processPair st1 tp).exts = (processPair st2 tp).exts := by
  obtain ⟨isExa, p⟩ := tp
  rw [processPair, processPair, h1, h2]
  cases st2.ui.set_ls p
  · cases (if isExa then st2.ui.set_exa p else none)
    · cases globCompile p.key <;> exact ⟨rfl, rfl⟩
    · exact ⟨rfl, rfl⟩
  · exact ⟨rfl, rfl⟩

theorem pairOk_false (tp : TaggedPair) (h : pairOk tp = false) :
    lsCode tp.2.key = none ∧ (tp.1 = false ∨ exaCode tp.2.key = none) ∧
      globCompile tp.2.key = none := by
  rw [pairOk, recognizedCode] at h
  refine ⟨?_, ?_, ?_⟩
  · cases hls : lsCode tp.2.key
    · rfl
    · rw [hls] at h; simp at h
  · cases hb : tp.1
    · exact Or.inl rfl
    · cases hexa : exaCode tp.2.key
      · exact Or.inr rfl
      · rw [hb, hexa] at h; simp at h
  · cases hg : globCompile tp.2.key
    · rfl
    · rw [hg] at h; simp at h

theorem foldl_filter_pairOk (ps : List TaggedPair) :
    ∀ st1 st2 : ParseState, st1.ui = st2.ui → st1.exts = st2.exts →
      (ps.foldl processPair st1).ui = ((ps.filter pairOk).foldl processPair st2).ui ∧
      (ps.foldl processPair st1).exts = ((ps.filter pairOk).foldl processPair st2).exts := by
  induction ps with
  | nil => exact fun st1 st2 h1 h2 => ⟨h1, h2⟩
  | cons tp ps ih =>
    intro st1 st2 h1 h2
    cases hok : pairOk tp with
    | true =>
      rw [List.filter_cons_of_pos hok, List.foldl_cons, List.foldl_cons]
      obtain ⟨h1', h2'⟩ := processPair_congr tp st1 st2 h1 h2
      exact ih (processPair st1 tp) (processPair st2 tp) h1' h2'
    | false =>
      rw [List.filter_cons_of_neg (by simp [hok]), List.foldl_cons]
      obtain ⟨hls, hexa, hg⟩ := pairOk_false tp hok
      have hstep : processPair st1 tp = { st1 with diags := st1.diags ++ [tp.2] } := by
        obtain ⟨isExa, p⟩ := tp
        exact processPair_fail isExa p st1 hls hexa hg
      rw [hstep]
      exact ih _ st2 h1 h2

/-- **C9.**  A key/value pair whose key is recognized by no consulted code
set and fails to compile as a glob pattern only records a diagnostic: it
adds no extension-mapping entry, writes no slot, and the rest of the
specification still takes full effect — the style table and extension
mappings produced by `parse_color_vars` are those obtained from the
effective (recognized-or-well-formed-glob) pairs alone.  Parsing is a total
function, so it never fails. -/
theorem glob_failure_recovery :
    (∀ (isExa : Bool) (p : Pair) (st : ParseState),
      lsCode p.key = none → (isExa = false ∨ exaCode p.key = none) →
      globCompile p.key = none →
      processPair st (isExa, p) = { st with diags := st.diags ++ [p] }) ∧
    (∀ (d : Definitions) (ui0 : UiStyles),
      (d.parse_color_vars ui0).1.ui =
        ((d.taggedPairs.filter pairOk).foldl processPair ⟨ui0, {}, []⟩).ui ∧
      (d.parse_color_vars ui0).1.exts =
        ((d.taggedPairs.filter pairOk).foldl processPair ⟨ui0, {}, []⟩).exts) := by
  constructor
  · exact processPair_fail
  · intro d ui0
    rw [Definitions.parse_color_vars]
    exact foldl_filter_pairOk d.taggedPairs ⟨ui0, {}, []⟩ ⟨ui0, {}, []⟩ rfl rfl

/-- Witness for **C9**: the key `[x` (an invalid glob) in the extended
string only records a diagnostic. -/
theorem glob_failure_recovery_witness :
    processPair ⟨UiStyles.plain, {}, []⟩ (true, ⟨"[x", "31"⟩) =
      { ParseState.mk UiStyles.plain {} [] with
        diags := (ParseState.mk UiStyles.plain {} []).diags ++ [⟨"[x", "31"⟩] } :=
  glob_failure_recovery.1 true ⟨"[x", "31"⟩ ⟨UiStyles.plain, {}, []⟩ rfl (Or.inr rfl) rfl

/-! ### The `reset` sentinel (claim C5) -/

theorem leadsWith_append (l r : List Char) : leadsWith l (l ++ r) = true := by
  induction l with
  | nil => rfl
  | cons c cs ih => simp [leadsWith, ih]

theorem reset_prefix_data (rest : String) :
    ("reset:" ++ rest).data = 'r' :: 'e' :: 's' :: 'e' :: 't' :: ':' :: rest.data := by
  rw [String.data_append]
  rfl

theorem splitSegs_reset_prefix (rest : String) :
    splitSegs ("reset:" ++ rest).data = "reset".data :: splitSegs rest.data := by
  rw [reset_prefix_data]
  simp [splitSegs]

theorem eachPair_reset_prefix (rest : String) :
    eachPair ("reset:" ++ rest) = eachPair rest := by
  rw [eachPair, splitSegs_reset_prefix, List.filterMap_cons]
  have h : parsePair "reset".data = none := rfl
  rw [h]
  rfl

/-- **C5.** `parse_color_vars` returns the use-built-in-file-types flag as
false exactly when the extended string is present and is `"reset"` or begins
with `"reset:"` (so a `reset` anywhere else leaves the flag true), and with
a `"reset:"` prefix the remaining pairs of the extended string are still
processed: the resulting style table and extension mappings are those of the
string with the prefix removed. -/
theorem reset_sentinel :
    (∀ (d : Definitions) (ui0 : UiStyles),
      ((d.parse_color_vars ui0).2 = false ↔
        ∃ e, d.exa = some e ∧
          (e.data = "reset".data ∨ leadsWith "reset:".data e.data = true))) ∧
    (∀ (rest : String) (ui0 : UiStyles),
      ((Definitions.mk none (some ("reset:" ++ rest))).parse_color_vars ui0).1 =
        ((Definitions.mk none (some rest)).parse_color_vars ui0).1 ∧
      ((Definitions.mk none (some ("reset:" ++ rest))).parse_color_vars ui0).2 = false) := by
  constructor
  · intro d ui0
    rw [Definitions.parse_color_vars]
    cases hexa : d.exa with
    | none => simp [hexa]
    | some e =>
      simp only [hexa, isResetString, Bool.not_eq_false', Bool.or_eq_true,
        decide_eq_true_eq, Option.some.injEq]
      constructor
      · rintro (h | h)
        · exact ⟨e, rfl, Or.inl h⟩
        · exact ⟨e, rfl, Or.inr h⟩
      · rintro ⟨e', he', h | h⟩
        · cases he'; exact Or.inl h
        · cases he'; exact Or.inr h
  · intro rest ui0
    constructor
    · rw [Definitions.parse_color_vars, Definitions.parse_color_vars]
      simp [Definitions.taggedPairs, eachPair_reset_prefix]
    · rw [Definitions.parse_color_vars]
      have h : isResetString ("reset:" ++ rest) = true := by
        rw [isResetString, String.data_append, leadsWith_append]
        simp
      simp [h]

/-! ### Resolver-variant selection (claim C1) -/

/-- **C1.** When colour is enabled, the resolver variant chosen by
`to_theme` follows the four-row table exactly: empty mappings and flag off —
no file ever resolves to a style; empty mappings and flag on — resolution is
exactly the built-in file-type classifier; non-empty mappings and flag off —
resolution is exactly the extension-mapping lookup; non-empty mappings and
flag on — the extension-mapping result when it matches, and otherwise the
built-in classifier's result, never a merge of the two. -/
theorem resolver_selection (o : Options) (isatty : Bool)
    (h : ¬(o.use_colours = UseColours.never ∨
          (o.use_colours = UseColours.automatic ∧ isatty = false))) :
    ((o.definitions.parse_color_vars
        (UiStyles.default_theme o.colour_scale)).1.exts.mappings = [] →
      (o.definitions.parse_color_vars (UiStyles.default_theme o.colour_scale)).2 = false →
      ∀ f : File, (o.to_theme isatty).exts.get_style f (o.to_theme isatty) = none) ∧
    ((o.definitions.parse_color_vars
        (UiStyles.default_theme o.colour_scale)).1.exts.mappings = [] →
      (o.definitions.parse_color_vars (UiStyles.default_theme o.colour_scale)).2 = true →
      ∀ f : File, (o.to_theme isatty).exts.get_style f (o.to_theme isatty) =
        fileTypesStyle f (o.to_theme isatty)) ∧
    ((o.definitions.parse_color_vars
        (UiStyles.default_theme o.colour_scale)).1.exts.mappings ≠ [] →
      (o.definitions.parse_color_vars (UiStyles.default_theme o.colour_scale)).2 = false →
      ∀ f : File, (o.to_theme isatty).exts.get_style f (o.to_theme isatty) =
        (o.definitions.parse_color_vars
          (UiStyles.default_theme o.colour_scale)).1.exts.get_style f) ∧
    ((o.definitions.parse_color_vars
        (UiStyles.default_theme o.colour_scale)).1.exts.mappings ≠ [] →
      (o.definitions.parse_color_vars (UiStyles.default_theme o.colour_scale)).2 = true →
      ∀ f : File, (o.to_theme isatty).exts.get_style f (o.to_theme isatty) =
        match (o.definitions.parse_color_vars
            (UiStyles.default_theme o.colour_scale)).1.exts.get_style f with
        | some st => some st
        | none => fileTypesStyle f (o.to_theme isatty)) := by
  have ht : o.to_theme isatty =
      { ui := (o.definitions.parse_color_vars (UiStyles.default_theme o.colour_scale)).1.ui,
        exts :=
          match (o.definitions.parse_color_vars
              (UiStyles.default_theme o.colour_scale)).1.exts.is_non_empty,
            (o.definitions.parse_color_vars (UiStyles.default_theme o.colour_scale)).2 with
          | false, false => FileStyleResolver.noStyle
          | false, true => FileStyleResolver.fileTypes
          | true, false => FileStyleResolver.extMappings
              (o.definitions.parse_color_vars (UiStyles.default_theme o.colour_scale)).1.exts
          | true, true => FileStyleResolver.extThenFileTypes
              (o.definitions.parse_color_vars (UiStyles.default_theme o.colour_scale)).1.exts } := by
    rw [Options.to_theme, if_neg h]
  refine ⟨?_, ?_, ?_, ?_⟩ <;> intro h1 h2 f
  · have hne : (o.definitions.parse_color_vars
        (UiStyles.default_theme o.colour_scale)).1.exts.is_non_empty = false := by
      rw [ExtensionMappings.is_non_empty, h1]
      rfl
    rw [ht, hne, h2]
    rfl
  · have hne : (o.definitions.parse_color_vars
        (UiStyles.default_theme o.colour_scale)).1.exts.is_non_empty = false := by
      rw [ExtensionMappings.is_non_empty, h1]
      rfl
    rw [ht, hne, h2]
    rfl
  · have hne : (o.definitions.parse_color_vars
        (UiStyles.default_theme o.colour_scale)).1.exts.is_non_empty = true := by
      rw [ExtensionMappings.is_non_empty]
      simp [List.isEmpty_iff, h1]
    rw [ht, hne, h2]
    rfl
  · have hne : (o.definitions.parse_color_vars
        (UiStyles.default_theme o.colour_scale)).1.exts.is_non_empty = true := by
      rw [ExtensionMappings.is_non_empty]
      simp [List.isEmpty_iff, h1]
    rw [ht, hne, h2]
    cases hg : (o.definitions.parse_color_vars
        (UiStyles.default_theme o.colour_scale)).1.exts.get_style f with
    | some st => simp [FileStyleResolver.get_style, Option.orElse, hg]
    | none => simp [FileStyleResolver.get_style, Option.orElse, hg]

/-- Witness for **C1**: colour always on, no definition strings — the
built-in-classifier row of the table, at a concrete file. -/
theorem resolver_selection_witness :
    ((Options.mk UseColours.always {} ⟨none, none⟩).to_theme true).exts.get_style
        ⟨"a.png", some FileType.image⟩
        ((Options.mk UseColours.always {} ⟨none, none⟩).to_theme true) =
      fileTypesStyle ⟨"a.png", some FileType.image⟩
        ((Options.mk UseColours.always {} ⟨none, none⟩).to_theme true) :=
  (resolver_selection (Options.mk UseColours.always {} ⟨none, none⟩) true
      (by decide)).2.1 rfl rfl ⟨"a.png", some FileType.image⟩

end Eza
